import Mathlib

/-!
Verification development for the `inventory` credential issuance/validation
service.  The TypeScript sources are shallowly embedded: Redis-backed state
(cache, distributed lock, rate-limit windows) and the Prisma record store are
modelled as explicit association lists and lists, instants are integers
(milliseconds), and thrown `ApiError`s become an `Except` error kind.  The
cryptographic primitives (Argon2id hashing/verification, the SHA-1 searchable
hash, `new URL` item-key parsing) are kept abstract as an oracle structure,
mirroring `src/utils/crypto.ts`'s interface.
-/

namespace Inventory

/-- Error taxonomy from `src/types/errors.ts`.  `internalError` stands for the
generic infrastructure failure path (e.g. a Prisma `update` throwing because
the record is gone). -/
inductive ApiErrorKind where
  | validationError
  | duplicateError
  | notFoundError
  | unauthorizedError
  | expiredError
  | usageLimitError
  | rateLimitError
  | lockAcquisitionError
  | internalError
deriving DecidableEq

/-- A durable credential record, the Prisma `ApiKey` document shape. -/
structure ApiKey where
  id : String
  searchableHash : String
  hashedApiKey : String
  itemKey : String
  permission : List String
  publishedAt : Int
  expiresAt : Int
  usedCount : Int
  maxUses : Int
deriving DecidableEq

/-- Cached projection of a record, from `ApiKeyCacheData` in the cache module. -/
structure ApiKeyCacheData where
  hashedApiKey : String
  itemKey : String
  permission : List String
  expiresAt : Int
  usedCount : Int
  maxUses : Int
deriving DecidableEq

/-- A Redis lock entry: the random token value plus the PX expiry it was set
with. -/
structure LockEntry where
  value : String
  ttlMs : Int
deriving DecidableEq

/-- Abstract interface of `src/utils/crypto.ts`.  `verifyApiKey h s` is the
Argon2id verification of secret `s` against stored hash `h`;
`generateSearchableHash` is the 16-hex-char SHA-1 fingerprint;
`hashApiKey` is Argon2id derivation; `validateItemKey` is the
`new URL`-based format check. -/
structure Crypto where
  generateSearchableHash : String → String
  hashApiKey : String → String
  verifyApiKey : String → String → Bool
  validateItemKey : String → Bool

/-- Redis GET on an association-list model of the keyspace. -/
def assocGet {α : Type} : List (String × α) → String → Option α
  | [], _ => none
  | (k, v) :: rest, key => if k == key then some v else assocGet rest key

/-- Redis SET (unconditional): replace in place or append. -/
def assocSet {α : Type} : List (String × α) → String → α → List (String × α)
  | [], key, v => [(key, v)]
  | (k, w) :: rest, key, v =>
      if k == key then (key, v) :: rest else (k, w) :: assocSet rest key v

/-- Redis DEL: remove the binding for a key. -/
def assocErase {α : Type} : List (String × α) → String → List (String × α)
  | [], _ => []
  | (k, v) :: rest, key => if k == key then rest else (k, v) :: assocErase rest key

/-- `ApiKeyCache.get`: GET `inventory:api_key:<apiKey>` and parse. -/
def ApiKeyCache.get (cache : List (String × ApiKeyCacheData)) (apiKey : String) :
    Option ApiKeyCacheData :=
  assocGet cache (String.append "inventory:api_key:" apiKey)

/-- `ApiKeyCache.set`: SETEX `inventory:api_key:<apiKey>` with the projection. -/
def ApiKeyCache.set (cache : List (String × ApiKeyCacheData)) (apiKey : String)
    (data : ApiKeyCacheData) : List (String × ApiKeyCacheData) :=
  assocSet cache (String.append "inventory:api_key:" apiKey) data

/-- `ApiKeyCache.incrementUsage`: re-read the entry, bump `usedCount` by one and
write it back; `none` when the key is not cached. -/
def ApiKeyCache.incrementUsage (cache : List (String × ApiKeyCacheData))
    (apiKey : String) : Option Int × List (String × ApiKeyCacheData) :=
  match ApiKeyCache.get cache apiKey with
  | none => (none, cache)
  | some data =>
      let data' := { data with usedCount := data.usedCount + 1 }
      (some data'.usedCount, ApiKeyCache.set cache apiKey data')

/-- `DistributedLock.acquire`: a single SET NX PX attempt on
`inventory:lock:<resource>`; the freshly generated random token is passed in
as `lockValue`. -/
def DistributedLock.acquire (locks : List (String × LockEntry)) (resource : String)
    (ttl : Int) (lockValue : String) : Option String × List (String × LockEntry) :=
  let lockKey := String.append "inventory:lock:" resource
  match assocGet locks lockKey with
  | none => (some lockValue, assocSet locks lockKey { value := lockValue, ttlMs := ttl })
  | some _ => (none, locks)

/-- `DistributedLock.release`: the atomic Lua check-equals-then-delete. -/
def DistributedLock.release (locks : List (String × LockEntry)) (resource : String)
    (lockValue : String) : Bool × List (String × LockEntry) :=
  let lockKey := String.append "inventory:lock:" resource
  match assocGet locks lockKey with
  | none => (false, locks)
  | some entry =>
      if entry.value == lockValue then (true, assocErase locks lockKey)
      else (false, locks)

/-- `ApiKeyRepository.findByHashedKey`: Prisma `findUnique` on the unique
`hashedApiKey` index (first match in the list model). -/
def findByHashedKey : List ApiKey → String → Option ApiKey
  | [], _ => none
  | r :: rs, h => if r.hashedApiKey == h then some r else findByHashedKey rs h

/-- `ApiKeyRepository.findBySearchableHash`: Prisma `findMany` on the
fingerprint index. -/
def findBySearchableHash (store : List ApiKey) (h : String) : List ApiKey :=
  store.filter (fun r => r.searchableHash == h)

/-- `ApiKeyRepository.exists`: `count > 0` on the `hashedApiKey` filter. -/
def existsHashed (store : List ApiKey) (h : String) : Bool :=
  store.any (fun r => r.hashedApiKey == h)

/-- `ApiKeyRepository.incrementUsage`: Prisma `update` incrementing `usedCount`
on the unique `hashedApiKey`; `none` models the update throwing because no
record matches. -/
def incrementUsage : List ApiKey → String → Option (ApiKey × List ApiKey)
  | [], _ => none
  | r :: rs, h =>
      if r.hashedApiKey == h then
        let r' := { r with usedCount := r.usedCount + 1 }
        some (r', r' :: rs)
      else
        match incrementUsage rs h with
        | none => none
        | some (u, rs') => some (u, r :: rs')

/-- The whole mutable world the pipelines touch: the durable store, the cache
keyspace and the lock keyspace. -/
structure SysState where
  store : List ApiKey
  cache : List (String × ApiKeyCacheData)
  locks : List (String × LockEntry)
deriving DecidableEq

/-- Successful validation payload (`ValidateApiKeyResponse.data`). -/
structure ValidateData where
  itemKey : String
  permission : List String
  expiresAt : Int
  usedCount : Int
  maxUses : Int
deriving DecidableEq

/-- The body of `ValidatorService.validateApiKey` that runs inside the
`try { ... }` while the per-secret lock is held (steps 2-7 of the flow). -/
def validateLocked (crypto : Crypto) (now : Int) (apiKey : String) (st : SysState) :
    Except ApiErrorKind ValidateData × SysState :=
  match ApiKeyCache.get st.cache apiKey with
  | some cachedData =>
      if ! crypto.verifyApiKey cachedData.hashedApiKey apiKey then
        (Except.error ApiErrorKind.unauthorizedError, st)
      else if cachedData.expiresAt ≤ now then
        (Except.error ApiErrorKind.expiredError, st)
      else if cachedData.maxUses ≤ cachedData.usedCount then
        (Except.error ApiErrorKind.usageLimitError, st)
      else
        let cacheRes := ApiKeyCache.incrementUsage st.cache apiKey
        match incrementUsage st.store cachedData.hashedApiKey with
        | none => (Except.error ApiErrorKind.internalError, { st with cache := cacheRes.2 })
        | some (_, store') =>
            (Except.ok { itemKey := cachedData.itemKey, permission := cachedData.permission,
                         expiresAt := cachedData.expiresAt,
                         usedCount := cachedData.usedCount + 1,
                         maxUses := cachedData.maxUses },
             { st with cache := cacheRes.2, store := store' })
  | none =>
      let searchableHash := crypto.generateSearchableHash apiKey
      let candidates := findBySearchableHash st.store searchableHash
      if candidates.isEmpty then
        (Except.error ApiErrorKind.notFoundError, st)
      else
        match candidates.find? (fun c => crypto.verifyApiKey c.hashedApiKey apiKey) with
        | none => (Except.error ApiErrorKind.unauthorizedError, st)
        | some validApiKey =>
            if validApiKey.expiresAt ≤ now then
              (Except.error ApiErrorKind.expiredError, st)
            else if validApiKey.maxUses ≤ validApiKey.usedCount then
              (Except.error ApiErrorKind.usageLimitError, st)
            else
              match incrementUsage st.store validApiKey.hashedApiKey with
              | none => (Except.error ApiErrorKind.internalError, st)
              | some (updatedKey, store') =>
                  let cache' := ApiKeyCache.set st.cache apiKey
                    { hashedApiKey := validApiKey.hashedApiKey,
                      itemKey := validApiKey.itemKey,
                      permission := validApiKey.permission,
                      expiresAt := validApiKey.expiresAt,
                      usedCount := updatedKey.usedCount,
                      maxUses := validApiKey.maxUses }
                  (Except.ok { itemKey := validApiKey.itemKey,
                               permission := validApiKey.permission,
                               expiresAt := validApiKey.expiresAt,
                               usedCount := updatedKey.usedCount,
                               maxUses := validApiKey.maxUses },
                   { st with store := store', cache := cache' })

/-- `ValidatorService.validateApiKey`.  The request's `apiKey` field is an
`Option` (`undefined` models the missing field); the freshly generated lock
token is the `lockValue` parameter; the `try/finally` is the explicit release
after the locked body. -/
def validateApiKey (crypto : Crypto) (now : Int) (lockValue : String)
    (apiKey : Option String) (st : SysState) :
    Except ApiErrorKind ValidateData × SysState :=
  match apiKey with
  | none => (Except.error ApiErrorKind.validationError, st)
  | some key =>
      if key.length = 0 then
        (Except.error ApiErrorKind.validationError, st)
      else
        let lockKey := String.append "validate:" key
        match DistributedLock.acquire st.locks lockKey 10000 lockValue with
        | (none, locks') =>
            (Except.error ApiErrorKind.lockAcquisitionError, { st with locks := locks' })
        | (some tok, locks') =>
            let afterBody := validateLocked crypto now key { st with locks := locks' }
            let rel := DistributedLock.release afterBody.2.locks lockKey tok
            (afterBody.1, { afterBody.2 with locks := rel.2 })

/-- Publish request, after JSON parsing: `expiresAt` is the parsed instant
(`none` models an unparseable date, i.e. `isNaN(getTime())`). -/
structure PublishApiKeyRequest where
  itemKey : String
  permission : List String
  expiresAt : Option Int
  maxUses : Int
deriving DecidableEq

/-- Successful publish payload (`PublishApiKeyResponse.data`). -/
structure PublishData where
  apiKey : String
  itemKey : String
  permission : List String
  publishedAt : Int
  expiresAt : Int
  maxUses : Int
deriving DecidableEq

/-- `PublisherService.publishApiKey`.  The generated random secret and the
store-assigned id are the `originalApiKey`/`newId` parameters. -/
def publishApiKey (crypto : Crypto) (now : Int) (originalApiKey newId : String)
    (request : PublishApiKeyRequest) (store : List ApiKey) :
    Except ApiErrorKind PublishData × List ApiKey :=
  if ! crypto.validateItemKey request.itemKey then
    (Except.error ApiErrorKind.validationError, store)
  else if request.permission.isEmpty then
    (Except.error ApiErrorKind.validationError, store)
  else
    match request.expiresAt with
    | none => (Except.error ApiErrorKind.validationError, store)
    | some expiresAt =>
        if expiresAt ≤ now then
          (Except.error ApiErrorKind.validationError, store)
        else if request.maxUses ≤ 0 then
          (Except.error ApiErrorKind.validationError, store)
        else
          let searchableHash := crypto.generateSearchableHash originalApiKey
          let hashedApiKey := crypto.hashApiKey originalApiKey
          if existsHashed store hashedApiKey then
            (Except.error ApiErrorKind.duplicateError, store)
          else
            let apiKeyRecord : ApiKey :=
              { id := newId, searchableHash := searchableHash,
                hashedApiKey := hashedApiKey, itemKey := request.itemKey,
                permission := request.permission, publishedAt := now,
                expiresAt := expiresAt, usedCount := 0,
                maxUses := request.maxUses }
            (Except.ok { apiKey := originalApiKey, itemKey := apiKeyRecord.itemKey,
                         permission := apiKeyRecord.permission, publishedAt := now,
                         expiresAt := expiresAt, maxUses := apiKeyRecord.maxUses },
             store ++ [apiKeyRecord])

/-- The Prisma `update` performed by `AdminService.revokeKey`: set `expiresAt`
to now on the unique `hashedApiKey` match. -/
def updateExpiresAt : List ApiKey → String → Int → List ApiKey
  | [], _, _ => []
  | r :: rs, h, t =>
      if r.hashedApiKey == h then { r with expiresAt := t } :: rs
      else r :: updateExpiresAt rs h t

/-- `AdminService.revokeKey`: look the record up, then set its `expiresAt` to
now; only `expiresAt` is touched. -/
def revokeKey (store : List ApiKey) (hashedApiKey : String) (now : Int) :
    Except ApiErrorKind Unit × List ApiKey :=
  match findByHashedKey store hashedApiKey with
  | none => (Except.error ApiErrorKind.notFoundError, store)
  | some _ => (Except.ok (), updateExpiresAt store hashedApiKey now)

/-- `RateLimiter.checkLimit` on one identity's sorted-set entries (scores are
the recorded timestamps).  The MULTI pipeline: ZREMRANGEBYSCORE 0..windowStart
(inclusive), ZCARD, ZADD now, EXPIRE ceil(windowMs/1000).  Returns (rejected,
new entries, key TTL in seconds); `rejected = true` is the `RateLimitError`
throw. -/
def RateLimiter.checkLimit (entries : List Int) (now maxRequests windowMs : Int) :
    Bool × List Int × Int :=
  let windowStart := now - windowMs
  let pruned := entries.filter (fun s => ! (decide (0 ≤ s) && decide (s ≤ windowStart)))
  let count : Int := pruned.length
  let entries' := pruned ++ [now]
  let ttlSec := (windowMs + 999) / 1000
  (decide (maxRequests ≤ count), entries', ttlSec)

/-- Modelled from the spec: the rate-check described in §4.5, whose prune step
drops only entries strictly "older than `now - window`"; used to compare the
spec's wording against the code's boundary-inclusive ZREMRANGEBYSCORE. -/
def checkLimitSpec (entries : List Int) (now maxRequests windowMs : Int) :
    Bool × List Int × Int :=
  let windowStart := now - windowMs
  let pruned := entries.filter (fun s => ! decide (s < windowStart))
  let count : Int := pruned.length
  let entries' := pruned ++ [now]
  let ttlSec := (windowMs + 999) / 1000
  (decide (maxRequests ≤ count), entries', ttlSec)

/-- Iterate `RateLimiter.checkLimit` over a list of request times, threading
the identity's entry set; returns the per-request rejection bits and the final
entries. -/
def runChecks (maxRequests windowMs : Int) : List Int → List Int → List Bool × List Int
  | [], entries => ([], entries)
  | t :: ts, entries =>
      let r := RateLimiter.checkLimit entries t maxRequests windowMs
      let rest := runChecks maxRequests windowMs ts r.2.1
      (r.1 :: rest.1, rest.2)

/-- One client-visible operation of the core pipelines, with its
nondeterministic inputs (generated secret/id/token, wall clock) made explicit. -/
inductive Op where
  | publish (request : PublishApiKeyRequest) (originalApiKey newId : String) (now : Int)
  | validate (apiKey : Option String) (lockValue : String) (now : Int)
  | revoke (hashedApiKey : String) (now : Int)

/-- Effect of one operation on the shared state. -/
def step (crypto : Crypto) (st : SysState) : Op → SysState
  | Op.publish request originalApiKey newId now =>
      { st with store := (publishApiKey crypto now originalApiKey newId request st.store).2 }
  | Op.validate apiKey lockValue now =>
      (validateApiKey crypto now lockValue apiKey st).2
  | Op.revoke hashedApiKey now =>
      { st with store := (revokeKey st.store hashedApiKey now).2 }

/-- Run a sequence of operations. -/
def run (crypto : Crypto) (st : SysState) : List Op → SysState
  | [] => st
  | op :: ops => run crypto (step crypto st op) ops

/-- The full Redis key guarding validation of a given secret. -/
def lockKeyFor (apiKey : String) : String :=
  String.append "inventory:lock:" (String.append "validate:" apiKey)

/-- The cache projection of a durable record, as written by the validator's
cache-refresh and by `primeCache`. -/
def cacheProj (r : ApiKey) : ApiKeyCacheData :=
  { hashedApiKey := r.hashedApiKey, itemKey := r.itemKey,
    permission := r.permission, expiresAt := r.expiresAt,
    usedCount := r.usedCount, maxUses := r.maxUses }

/-! ### Concrete fixtures (used to exercise the theorems on closed inputs) -/

/-- A concrete crypto oracle: the verifier of `s` is `"h:" ++ s`, every secret
fingerprints to `"fp"`. -/
def cryptoT : Crypto :=
  { generateSearchableHash := fun _ => "fp"
    hashApiKey := fun s => String.append "h:" s
    verifyApiKey := fun h s => h == String.append "h:" s
    validateItemKey := fun k => k == "app://users/u1" }

/-- A concrete unexpired record for secret `"s1"` with `maxUses = 2`. -/
def recT : ApiKey :=
  { id := "k1", searchableHash := "fp", hashedApiKey := "h:s1",
    itemKey := "app://users/u1", permission := ["read"],
    publishedAt := 0, expiresAt := 100, usedCount := 0, maxUses := 2 }

/-- State with `recT` in the store, an empty cache and no held locks. -/
def stT : SysState := { store := [recT], cache := [], locks := [] }

/-- State with `recT` in the store and its projection cached under `"s1"`. -/
def stHitT : SysState :=
  { store := [recT],
    cache := [(String.append "inventory:api_key:" "s1", cacheProj recT)],
    locks := [] }

/-- A poisoned/stale state: the cache still holds an entry for `"s1"` whose
verifier matches, but the durable store no longer has any record. -/
def stCx : SysState :=
  { store := [],
    cache := [(String.append "inventory:api_key:" "s1", cacheProj recT)],
    locks := [] }

/-- A concrete valid publish request. -/
def reqT : PublishApiKeyRequest :=
  { itemKey := "app://users/u1", permission := ["read"],
    expiresAt := some 100, maxUses := 2 }

/-! ### Association-list store lemmas -/

theorem assocGet_assocSet_self {α : Type} (l : List (String × α)) (k : String) (v : α) :
    assocGet (assocSet l k v) k = some v := by
  induction l with
  | nil => simp [assocSet, assocGet]
  | cons p rest ih =>
    obtain ⟨k', v'⟩ := p
    cases hk : (k' == k) with
    | true => simp [assocSet, assocGet, hk]
    | false => simp [assocSet, assocGet, hk, ih]

theorem assocErase_assocSet {α : Type} (l : List (String × α)) (k : String) (v : α)
    (h : assocGet l k = none) : assocErase (assocSet l k v) k = l := by
  induction l with
  | nil => simp [assocSet, assocErase]
  | cons p rest ih =>
    obtain ⟨k', v'⟩ := p
    cases hk : (k' == k) with
    | true => simp [assocGet, hk] at h
    | false =>
      simp only [assocGet, hk, Bool.false_eq_true, if_false] at h
      simp [assocSet, assocErase, hk, ih h]

theorem ApiKeyCache.get_set_self (cache : List (String × ApiKeyCacheData))
    (apiKey : String) (data : ApiKeyCacheData) :
    ApiKeyCache.get (ApiKeyCache.set cache apiKey data) apiKey = some data := by
  unfold ApiKeyCache.get ApiKeyCache.set
  exact assocGet_assocSet_self ..

/-! ### Record-store lemmas -/

theorem incrementUsage_of_find (store : List ApiKey) (h : String) (r : ApiKey)
    (hf : findByHashedKey store h = some r) :
    ∃ store', incrementUsage store h = some ({ r with usedCount := r.usedCount + 1 }, store') ∧
      findByHashedKey store' h = some { r with usedCount := r.usedCount + 1 } := by
  induction store with
  | nil => simp [findByHashedKey] at hf
  | cons x rest ih =>
    cases hx : (x.hashedApiKey == h) with
    | true =>
      simp only [findByHashedKey, hx, if_true, Option.some.injEq] at hf
      subst hf
      refine ⟨{ x with usedCount := x.usedCount + 1 } :: rest, ?_, ?_⟩
      · simp [incrementUsage, hx]
      · simp [findByHashedKey, hx]
    | false =>
      simp only [findByHashedKey, hx, Bool.false_eq_true, if_false] at hf
      obtain ⟨store', h1, h2⟩ := ih hf
      refine ⟨x :: store', ?_, ?_⟩
      · simp [incrementUsage, hx, h1]
      · simp [findByHashedKey, hx, h2]

theorem incrementUsage_some_mem (store : List ApiKey) (h : String) (u : ApiKey)
    (store' : List ApiKey) (hinc : incrementUsage store h = some (u, store')) :
    ∃ r ∈ store, r.hashedApiKey = h := by
  induction store generalizing store' with
  | nil => simp [incrementUsage] at hinc
  | cons x rest ih =>
    cases hx : (x.hashedApiKey == h) with
    | true => exact ⟨x, List.mem_cons_self .., eq_of_beq hx⟩
    | false =>
      simp only [incrementUsage, hx, Bool.false_eq_true, if_false] at hinc
      cases hrest : incrementUsage rest h with
      | none => rw [hrest] at hinc; simp at hinc
      | some p =>
        rw [hrest] at hinc
        simp only [Option.some.injEq, Prod.mk.injEq] at hinc
        obtain ⟨r, hr, he⟩ := ih p.2 (by rw [hrest, ← hinc.1])
        exact ⟨r, List.mem_cons_of_mem _ hr, he⟩

theorem incrementUsage_mem (store : List ApiKey) (h : String) (u : ApiKey)
    (store' : List ApiKey) (hinc : incrementUsage store h = some (u, store')) :
    ∀ r' ∈ store', r' ∈ store ∨ ∃ r ∈ store, r' = { r with usedCount := r.usedCount + 1 } := by
  induction store generalizing store' with
  | nil => simp [incrementUsage] at hinc
  | cons x rest ih =>
    cases hx : (x.hashedApiKey == h) with
    | true =>
      simp only [incrementUsage, hx, if_true, Option.some.injEq, Prod.mk.injEq] at hinc
      intro r' hr'
      rw [← hinc.2] at hr'
      rcases List.mem_cons.mp hr' with h1 | h1
      · exact Or.inr ⟨x, List.mem_cons_self .., h1⟩
      · exact Or.inl (List.mem_cons_of_mem _ h1)
    | false =>
      simp only [incrementUsage, hx, Bool.false_eq_true, if_false] at hinc
      cases hrest : incrementUsage rest h with
      | none => rw [hrest] at hinc; simp at hinc
      | some p =>
        rw [hrest] at hinc
        simp only [Option.some.injEq, Prod.mk.injEq] at hinc
        intro r' hr'
        rw [← hinc.2] at hr'
        rcases List.mem_cons.mp hr' with h1 | h1
        · exact Or.inl (h1 ▸ List.mem_cons_self ..)
        · rcases ih p.2 (by rw [hrest, ← hinc.1]) r' h1 with h2 | ⟨r, hr, he⟩
          · exact Or.inl (List.mem_cons_of_mem _ h2)
          · exact Or.inr ⟨r, List.mem_cons_of_mem _ hr, he⟩

theorem incrementUsage_find_mono (store : List ApiKey) (h : String) (u : ApiKey)
    (store' : List ApiKey) (hinc : incrementUsage store h = some (u, store'))
    (k : String) (r : ApiKey) (hf : findByHashedKey store k = some r) :
    findByHashedKey store' k = some r ∨
      findByHashedKey store' k = some { r with usedCount := r.usedCount + 1 } := by
  induction store generalizing store' with
  | nil => simp [incrementUsage] at hinc
  | cons x rest ih =>
    cases hx : (x.hashedApiKey == h) with
    | true =>
      simp only [incrementUsage, hx, if_true, Option.some.injEq, Prod.mk.injEq] at hinc
      rw [← hinc.2]
      cases hxk : (x.hashedApiKey == k) with
      | true =>
        simp only [findByHashedKey, hxk, if_true, Option.some.injEq] at hf
        subst hf
        right
        simp [findByHashedKey, hxk]
      | false =>
        simp only [findByHashedKey, hxk, Bool.false_eq_true, if_false] at hf
        left
        simp [findByHashedKey, hxk, hf]
    | false =>
      simp only [incrementUsage, hx, Bool.false_eq_true, if_false] at hinc
      cases hrest : incrementUsage rest h with
      | none => rw [hrest] at hinc; simp at hinc
      | some p =>
        rw [hrest] at hinc
        simp only [Option.some.injEq, Prod.mk.injEq] at hinc
        rw [← hinc.2]
        cases hxk : (x.hashedApiKey == k) with
        | true =>
          simp only [findByHashedKey, hxk, if_true, Option.some.injEq] at hf
          subst hf
          left
          simp [findByHashedKey, hxk]
        | false =>
          simp only [findByHashedKey, hxk, Bool.false_eq_true, if_false] at hf
          rcases ih p.2 (by rw [hrest, ← hinc.1]) hf with h2 | h2
          · left; simp [findByHashedKey, hxk, h2]
          · right; simp [findByHashedKey, hxk, h2]

theorem findByHashedKey_append (store l : List ApiKey) (k : String) (r : ApiKey)
    (hf : findByHashedKey store k = some r) :
    findByHashedKey (store ++ l) k = some r := by
  induction store with
  | nil => simp [findByHashedKey] at hf
  | cons x rest ih =>
    cases hx : (x.hashedApiKey == k) with
    | true =>
      simp only [findByHashedKey, hx, if_true, Option.some.injEq] at hf
      subst hf
      simp [findByHashedKey, hx]
    | false =>
      simp only [findByHashedKey, hx, Bool.false_eq_true, if_false] at hf
      simp [findByHashedKey, hx, ih hf]

theorem updateExpiresAt_mem (store : List ApiKey) (h : String) (t : Int) :
    ∀ r' ∈ updateExpiresAt store h t,
      r' ∈ store ∨ ∃ r ∈ store, r' = { r with expiresAt := t } := by
  induction store with
  | nil => simp [updateExpiresAt]
  | cons x rest ih =>
    cases hx : (x.hashedApiKey == h) with
    | true =>
      simp only [updateExpiresAt, hx, if_true]
      intro r' hr'
      rcases List.mem_cons.mp hr' with h1 | h1
      · exact Or.inr ⟨x, List.mem_cons_self .., h1⟩
      · exact Or.inl (List.mem_cons_of_mem _ h1)
    | false =>
      simp only [updateExpiresAt, hx, Bool.false_eq_true, if_false]
      intro r' hr'
      rcases List.mem_cons.mp hr' with h1 | h1
      · exact Or.inl (h1 ▸ List.mem_cons_self ..)
      · rcases ih r' h1 with h2 | ⟨r, hr, he⟩
        · exact Or.inl (List.mem_cons_of_mem _ h2)
        · exact Or.inr ⟨r, List.mem_cons_of_mem _ hr, he⟩

theorem updateExpiresAt_find_mono (store : List ApiKey) (h : String) (t : Int)
    (k : String) (r : ApiKey) (hf : findByHashedKey store k = some r) :
    findByHashedKey (updateExpiresAt store h t) k = some r ∨
      findByHashedKey (updateExpiresAt store h t) k = some { r with expiresAt := t } := by
  induction store with
  | nil => simp [findByHashedKey] at hf
  | cons x rest ih =>
    cases hx : (x.hashedApiKey == h) with
    | true =>
      simp only [updateExpiresAt, hx, if_true]
      cases hxk : (x.hashedApiKey == k) with
      | true =>
        simp only [findByHashedKey, hxk, if_true, Option.some.injEq] at hf
        subst hf
        right
        simp [findByHashedKey, hxk]
      | false =>
        simp only [findByHashedKey, hxk, Bool.false_eq_true, if_false] at hf
        left
        simp [findByHashedKey, hxk, hf]
    | false =>
      simp only [updateExpiresAt, hx, Bool.false_eq_true, if_false]
      cases hxk : (x.hashedApiKey == k) with
      | true =>
        simp only [findByHashedKey, hxk, if_true, Option.some.injEq] at hf
        subst hf
        left
        simp [findByHashedKey, hxk]
      | false =>
        simp only [findByHashedKey, hxk, Bool.false_eq_true, if_false] at hf
        rcases ih hf with h2 | h2
        · left; simp [findByHashedKey, hxk, h2]
        · right; simp [findByHashedKey, hxk, h2]

/-! ### Validator pipeline case analysis -/

theorem validateLocked_cases (crypto : Crypto) (now : Int) (key : String) (st : SysState) :
    validateLocked crypto now key st = (Except.error ApiErrorKind.unauthorizedError, st) ∨
    validateLocked crypto now key st = (Except.error ApiErrorKind.expiredError, st) ∨
    validateLocked crypto now key st = (Except.error ApiErrorKind.usageLimitError, st) ∨
    validateLocked crypto now key st = (Except.error ApiErrorKind.notFoundError, st) ∨
    (∃ cache', validateLocked crypto now key st =
        (Except.error ApiErrorKind.internalError, { st with cache := cache' })) ∨
    (∃ d h u store' cache', incrementUsage st.store h = some (u, store') ∧
        crypto.verifyApiKey h key = true ∧
        validateLocked crypto now key st =
          (Except.ok d, { st with store := store', cache := cache' })) := by
  unfold validateLocked
  split
  · -- cache hit
    next cd hc =>
    split
    next hv => exact Or.inl rfl
    next hv =>
      split
      next he => exact Or.inr (Or.inl rfl)
      next he =>
        split
        next hu => exact Or.inr (Or.inr (Or.inl rfl))
        next hu =>
          split
          next hinc => exact Or.inr (Or.inr (Or.inr (Or.inr (Or.inl ⟨_, rfl⟩))))
          next u store' hinc =>
            refine Or.inr (Or.inr (Or.inr (Or.inr (Or.inr
              ⟨_, cd.hashedApiKey, u, store', _, hinc, ?_, rfl⟩))))
            simpa using hv
  · -- cache miss
    next hc =>
    dsimp only
    split
    next hempty => exact Or.inr (Or.inr (Or.inr (Or.inl rfl)))
    next hempty =>
      split
      next hfp => exact Or.inl rfl
      next validApiKey hfp =>
        split
        next he => exact Or.inr (Or.inl rfl)
        next he =>
          split
          next hu => exact Or.inr (Or.inr (Or.inl rfl))
          next hu =>
            split
            next hinc => exact Or.inr (Or.inr (Or.inr (Or.inr (Or.inl ⟨st.cache, rfl⟩))))
            next updatedKey store' hinc =>
              refine Or.inr (Or.inr (Or.inr (Or.inr (Or.inr
                ⟨_, validApiKey.hashedApiKey, updatedKey, store', _, hinc, ?_, rfl⟩))))
              have hpv := List.find?_some hfp
              simpa using hpv

theorem validateLocked_locks (crypto : Crypto) (now : Int) (key : String) (st : SysState) :
    (validateLocked crypto now key st).2.locks = st.locks := by
  rcases validateLocked_cases crypto now key st with
    h | h | h | h | ⟨ca, h⟩ | ⟨d, hh, u, s', ca, hi, hv, h⟩ <;> rw [h]

/-- Under a free lock and a nonempty key, `validateApiKey` is the locked body
run with the lock entry inserted, with the lock released (key deleted) at the
end. -/
theorem validateApiKey_unlocked (crypto : Crypto) (now : Int) (lockValue : String)
    (key : String) (st : SysState) (hk : ¬ key.length = 0)
    (hlock : assocGet st.locks (lockKeyFor key) = none) :
    validateApiKey crypto now lockValue (some key) st =
      ((validateLocked crypto now key
          { st with locks :=
              assocSet st.locks (lockKeyFor key) ({ value := lockValue, ttlMs := 10000 }) }).1,
       { (validateLocked crypto now key
          { st with locks :=
              assocSet st.locks (lockKeyFor key) ({ value := lockValue, ttlMs := 10000 }) }).2
         with locks := st.locks }) := by
  have hlock' : assocGet st.locks
      (String.append "inventory:lock:" (String.append "validate:" key)) = none := hlock
  unfold validateApiKey DistributedLock.acquire DistributedLock.release
  dsimp only
  rw [if_neg hk, hlock']
  dsimp only
  rw [validateLocked_locks, assocGet_assocSet_self]
  simp only [beq_self_eq_true, if_true]
  rw [assocErase_assocSet _ _ _ hlock']
  rfl

theorem validateLocked_hit_success (crypto : Crypto) (now : Int) (key : String)
    (st : SysState) (cd : ApiKeyCacheData) (u : ApiKey) (store' : List ApiKey)
    (hc : ApiKeyCache.get st.cache key = some cd)
    (hv : crypto.verifyApiKey cd.hashedApiKey key = true)
    (he : ¬ cd.expiresAt ≤ now)
    (hu : ¬ cd.maxUses ≤ cd.usedCount)
    (hinc : incrementUsage st.store cd.hashedApiKey = some (u, store')) :
    validateLocked crypto now key st =
      (Except.ok { itemKey := cd.itemKey, permission := cd.permission,
                   expiresAt := cd.expiresAt, usedCount := cd.usedCount + 1,
                   maxUses := cd.maxUses },
       { st with store := store',
                 cache := ApiKeyCache.set st.cache key
                   { cd with usedCount := cd.usedCount + 1 } }) := by
  simp [validateLocked, hc, hv, he, hu, hinc, ApiKeyCache.incrementUsage]

theorem validateLocked_hit_expired (crypto : Crypto) (now : Int) (key : String)
    (st : SysState) (cd : ApiKeyCacheData)
    (hc : ApiKeyCache.get st.cache key = some cd)
    (hv : crypto.verifyApiKey cd.hashedApiKey key = true)
    (he : cd.expiresAt ≤ now) :
    validateLocked crypto now key st = (Except.error ApiErrorKind.expiredError, st) := by
  simp [validateLocked, hc, hv, he]

theorem validateLocked_miss_success (crypto : Crypto) (now : Int) (key : String)
    (st : SysState) (r u : ApiKey) (store' : List ApiKey)
    (hc : ApiKeyCache.get st.cache key = none)
    (hfp : (findBySearchableHash st.store (crypto.generateSearchableHash key)).find?
        (fun c => crypto.verifyApiKey c.hashedApiKey key) = some r)
    (he : ¬ r.expiresAt ≤ now)
    (hu : ¬ r.maxUses ≤ r.usedCount)
    (hinc : incrementUsage st.store r.hashedApiKey = some (u, store')) :
    validateLocked crypto now key st =
      (Except.ok { itemKey := r.itemKey, permission := r.permission,
                   expiresAt := r.expiresAt, usedCount := u.usedCount,
                   maxUses := r.maxUses },
       { st with store := store',
                 cache := ApiKeyCache.set st.cache key
                   { hashedApiKey := r.hashedApiKey, itemKey := r.itemKey,
                     permission := r.permission, expiresAt := r.expiresAt,
                     usedCount := u.usedCount, maxUses := r.maxUses } }) := by
  cases hcand : findBySearchableHash st.store (crypto.generateSearchableHash key) with
  | nil => rw [hcand] at hfp; simp at hfp
  | cons a l =>
    rw [hcand] at hfp
    simp [validateLocked, hc, hcand, hfp, he, hu, hinc]

theorem validateLocked_miss_expired (crypto : Crypto) (now : Int) (key : String)
    (st : SysState) (r : ApiKey)
    (hc : ApiKeyCache.get st.cache key = none)
    (hfp : (findBySearchableHash st.store (crypto.generateSearchableHash key)).find?
        (fun c => crypto.verifyApiKey c.hashedApiKey key) = some r)
    (he : r.expiresAt ≤ now) :
    validateLocked crypto now key st = (Except.error ApiErrorKind.expiredError, st) := by
  cases hcand : findBySearchableHash st.store (crypto.generateSearchableHash key) with
  | nil => rw [hcand] at hfp; simp at hfp
  | cons a l =>
    rw [hcand] at hfp
    simp [validateLocked, hc, hcand, hfp, he]

theorem validateLocked_miss_notFound (crypto : Crypto) (now : Int) (key : String)
    (st : SysState)
    (hc : ApiKeyCache.get st.cache key = none)
    (hempty : findBySearchableHash st.store (crypto.generateSearchableHash key) = []) :
    validateLocked crypto now key st = (Except.error ApiErrorKind.notFoundError, st) := by
  simp [validateLocked, hc, hempty]

theorem validateLocked_miss_unauthorized (crypto : Crypto) (now : Int) (key : String)
    (st : SysState)
    (hc : ApiKeyCache.get st.cache key = none)
    (hne : (findBySearchableHash st.store (crypto.generateSearchableHash key)).isEmpty = false)
    (hfp : (findBySearchableHash st.store (crypto.generateSearchableHash key)).find?
        (fun c => crypto.verifyApiKey c.hashedApiKey key) = none) :
    validateLocked crypto now key st = (Except.error ApiErrorKind.unauthorizedError, st) := by
  simp [validateLocked, hc, hne, hfp]

/-- `ExpiredError`/`UsageLimitError` leave the whole state untouched. -/
theorem validateLocked_err_preserve (crypto : Crypto) (now : Int) (key : String)
    (st : SysState) (e : ApiErrorKind)
    (h1 : (validateLocked crypto now key st).1 = Except.error e)
    (h2 : e = ApiErrorKind.expiredError ∨ e = ApiErrorKind.usageLimitError) :
    (validateLocked crypto now key st).2 = st := by
  rcases validateLocked_cases crypto now key st with
    h | h | h | h | ⟨ca, h⟩ | ⟨d, hh, u, s', ca, hi, hv, h⟩ <;> rw [h] <;> rw [h] at h1 <;>
    simp only [Except.error.injEq] at h1 <;> first
      | rfl
      | (subst h1; rcases h2 with h2 | h2 <;> simp at h2)
      | (rcases h2 with h2 | h2 <;> simp_all)

/-- When the per-secret lock is already held, validation fails immediately with
`LockAcquisitionError` and nothing changes. -/
theorem validateApiKey_locked_out (crypto : Crypto) (now : Int) (lockValue : String)
    (key : String) (st : SysState) (entry : LockEntry)
    (hk : ¬ key.length = 0)
    (hl : assocGet st.locks (lockKeyFor key) = some entry) :
    validateApiKey crypto now lockValue (some key) st =
      (Except.error ApiErrorKind.lockAcquisitionError, st) := by
  have hl' : assocGet st.locks
      (String.append "inventory:lock:" (String.append "validate:" key)) = some entry := hl
  unfold validateApiKey DistributedLock.acquire
  dsimp only
  rw [if_neg hk, hl']

/-- The durable store after a validation is either untouched or the result of
exactly one `incrementUsage`. -/
theorem validateApiKey_store_cases (crypto : Crypto) (now : Int) (lockValue : String)
    (req : Option String) (st : SysState) :
    (validateApiKey crypto now lockValue req st).2.store = st.store ∨
    ∃ h u store', incrementUsage st.store h = some (u, store') ∧
      (validateApiKey crypto now lockValue req st).2.store = store' := by
  cases req with
  | none => exact Or.inl rfl
  | some key =>
    by_cases hk : key.length = 0
    · left; simp [validateApiKey, hk]
    · cases hlk : assocGet st.locks (lockKeyFor key) with
      | some entry =>
        rw [validateApiKey_locked_out crypto now lockValue key st entry hk hlk]
        exact Or.inl rfl
      | none =>
        rw [validateApiKey_unlocked crypto now lockValue key st hk hlk]
        rcases validateLocked_cases crypto now key
            { st with locks :=
                assocSet st.locks (lockKeyFor key) ({ value := lockValue, ttlMs := 10000 }) }
          with h | h | h | h | ⟨ca, h⟩ | ⟨d, hh, u, s', ca, hi, hv, h⟩ <;> rw [h]
        · exact Or.inl rfl
        · exact Or.inl rfl
        · exact Or.inl rfl
        · exact Or.inl rfl
        · exact Or.inl rfl
        · exact Or.inr ⟨hh, u, s', hi, rfl⟩

/-! ### Claim theorems -/

/-- Claim C10: when the presented secret is absent or the empty string,
`validateApiKey` fails with `ValidationError` and returns the state exactly as
it was: no lock is acquired, and neither the cache nor the store (nor any
rate-limiter state, which the pipeline does not hold) is touched. -/
theorem claim10_empty_secret_rejected_early (crypto : Crypto) (now : Int)
    (lockValue : String) (st : SysState) :
    validateApiKey crypto now lockValue none st =
      (Except.error ApiErrorKind.validationError, st) ∧
    validateApiKey crypto now lockValue (some "") st =
      (Except.error ApiErrorKind.validationError, st) := by
  constructor
  · rfl
  · simp [validateApiKey]

/-- Claim C8: `acquire` is a single atomic set-if-absent-with-expiry attempt
returning the generated token exactly when the key was absent (storing it with
the requested TTL) and `none` when held, leaving the keyspace unchanged on
contention; `release` deletes the key and returns `true` exactly when the
current value equals the presented token, and returns `false` leaving the
keyspace unchanged when the lock is absent or held under a different token. -/
theorem claim8_lock_acquire_release (locks : List (String × LockEntry))
    (resource : String) (ttl : Int) (lockValue : String) :
    (assocGet locks (String.append "inventory:lock:" resource) = none →
      DistributedLock.acquire locks resource ttl lockValue =
        (some lockValue,
         assocSet locks (String.append "inventory:lock:" resource)
           ({ value := lockValue, ttlMs := ttl }))) ∧
    (∀ e, assocGet locks (String.append "inventory:lock:" resource) = some e →
      DistributedLock.acquire locks resource ttl lockValue = (none, locks)) ∧
    (∀ e, assocGet locks (String.append "inventory:lock:" resource) = some e →
      e.value = lockValue →
      DistributedLock.release locks resource lockValue =
        (true, assocErase locks (String.append "inventory:lock:" resource))) ∧
    (∀ e, assocGet locks (String.append "inventory:lock:" resource) = some e →
      e.value ≠ lockValue →
      DistributedLock.release locks resource lockValue = (false, locks)) ∧
    (assocGet locks (String.append "inventory:lock:" resource) = none →
      DistributedLock.release locks resource lockValue = (false, locks)) := by
  refine ⟨?_, ?_, ?_, ?_, ?_⟩
  · intro h; simp [DistributedLock.acquire, h]
  · intro e h; simp [DistributedLock.acquire, h]
  · intro e h he; simp [DistributedLock.release, h, he]
  · intro e h he; simp [DistributedLock.release, h, he]
  · intro h; simp [DistributedLock.release, h]

theorem claim8_lock_acquire_release_witness :
    DistributedLock.acquire [] "r1" 5 "t1" =
      (some "t1", [(String.append "inventory:lock:" "r1",
        { value := "t1", ttlMs := 5 })]) ∧
    DistributedLock.release
        [(String.append "inventory:lock:" "r1", { value := "t1", ttlMs := 5 })] "r1" "t1" =
      (true, []) := by
  constructor
  · exact (claim8_lock_acquire_release [] "r1" 5 "t1").1 rfl
  · have h := (claim8_lock_acquire_release
      [(String.append "inventory:lock:" "r1",
        ({ value := "t1", ttlMs := 5 } : LockEntry))] "r1" 5 "t1").2.2.1
      ({ value := "t1", ttlMs := 5 }) (by rfl) rfl
    simpa [assocErase] using h

/-- Claim C4: whenever the per-secret lock is acquired (it was free on entry),
`validateApiKey` releases it before returning, on every exit path (success and
every error): the final lock keyspace equals the initial one and in particular
the per-secret key is no longer held, with the release done under the token
obtained at acquisition. -/
theorem claim4_lock_always_released (crypto : Crypto) (now : Int) (lockValue : String)
    (key : String) (st : SysState)
    (hk : ¬ key.length = 0)
    (hlock : assocGet st.locks (lockKeyFor key) = none) :
    (validateApiKey crypto now lockValue (some key) st).2.locks = st.locks ∧
    assocGet (validateApiKey crypto now lockValue (some key) st).2.locks
      (lockKeyFor key) = none := by
  rw [validateApiKey_unlocked crypto now lockValue key st hk hlock]
  exact ⟨rfl, hlock⟩

theorem claim4_lock_always_released_witness :
    (validateApiKey cryptoT 0 "t1" (some "s1") stT).2.locks = stT.locks ∧
    assocGet (validateApiKey cryptoT 0 "t1" (some "s1") stT).2.locks
      (lockKeyFor "s1") = none := by
  exact claim4_lock_always_released cryptoT 0 "t1" "s1" stT (by decide) rfl

/-- Claim C2: on both the cache-hit and the cache-miss path the expiry check
runs before the usage-limit check, so a record that is simultaneously expired
and exhausted fails with `ExpiredError` (and the state is returned exactly as
it was); and any validation failing with `ExpiredError` or `UsageLimitError`
leaves both the store and the cache unchanged (no usage counter moves). -/
theorem claim2_expiry_before_usage (crypto : Crypto) (now : Int) (lockValue : String)
    (key : String) (st : SysState) :
    (∀ cd, ¬ key.length = 0 → assocGet st.locks (lockKeyFor key) = none →
      ApiKeyCache.get st.cache key = some cd →
      crypto.verifyApiKey cd.hashedApiKey key = true →
      cd.expiresAt ≤ now → cd.maxUses ≤ cd.usedCount →
      validateApiKey crypto now lockValue (some key) st =
        (Except.error ApiErrorKind.expiredError, st)) ∧
    (∀ r, ¬ key.length = 0 → assocGet st.locks (lockKeyFor key) = none →
      ApiKeyCache.get st.cache key = none →
      (findBySearchableHash st.store (crypto.generateSearchableHash key)).find?
        (fun c => crypto.verifyApiKey c.hashedApiKey key) = some r →
      r.expiresAt ≤ now → r.maxUses ≤ r.usedCount →
      validateApiKey crypto now lockValue (some key) st =
        (Except.error ApiErrorKind.expiredError, st)) ∧
    (∀ req e, (validateApiKey crypto now lockValue req st).1 = Except.error e →
      (e = ApiErrorKind.expiredError ∨ e = ApiErrorKind.usageLimitError) →
      (validateApiKey crypto now lockValue req st).2.store = st.store ∧
      (validateApiKey crypto now lockValue req st).2.cache = st.cache) := by
  refine ⟨?_, ?_, ?_⟩
  · intro cd hk hlock hc hv he hu
    rw [validateApiKey_unlocked crypto now lockValue key st hk hlock,
        validateLocked_hit_expired crypto now key
          { store := st.store, cache := st.cache,
            locks := assocSet st.locks (lockKeyFor key)
              ({ value := lockValue, ttlMs := 10000 }) } cd hc hv he]
  · intro r hk hlock hc hfp he hu
    rw [validateApiKey_unlocked crypto now lockValue key st hk hlock,
        validateLocked_miss_expired crypto now key
          { store := st.store, cache := st.cache,
            locks := assocSet st.locks (lockKeyFor key)
              ({ value := lockValue, ttlMs := 10000 }) } r hc hfp he]
  · intro req e h1 h2
    cases req with
    | none =>
      simp only [validateApiKey, Except.error.injEq] at h1
      subst h1
      rcases h2 with h2 | h2 <;> simp at h2
    | some key' =>
      by_cases hk : key'.length = 0
      · simp only [validateApiKey, if_pos hk, Except.error.injEq] at h1
        subst h1
        rcases h2 with h2 | h2 <;> simp at h2
      · cases hlk : assocGet st.locks (lockKeyFor key') with
        | some entry =>
          rw [validateApiKey_locked_out crypto now lockValue key' st entry hk hlk] at h1
          simp only [Except.error.injEq] at h1
          subst h1
          rcases h2 with h2 | h2 <;> simp at h2
        | none =>
          rw [validateApiKey_unlocked crypto now lockValue key' st hk hlk] at h1 ⊢
          have hp := validateLocked_err_preserve crypto now key' _ e h1 h2
          rw [hp]
          exact ⟨rfl, rfl⟩

theorem claim2_expiry_before_usage_witness :
    validateApiKey cryptoT 200 "t1" (some "s1")
      { store := [recT],
        cache := [(String.append "inventory:api_key:" "s1",
          { hashedApiKey := "h:s1", itemKey := "app://users/u1", permission := ["read"],
            expiresAt := 100, usedCount := 2, maxUses := 2 })],
        locks := [] } =
      (Except.error ApiErrorKind.expiredError,
       { store := [recT],
         cache := [(String.append "inventory:api_key:" "s1",
           { hashedApiKey := "h:s1", itemKey := "app://users/u1", permission := ["read"],
             expiresAt := 100, usedCount := 2, maxUses := 2 })],
         locks := [] }) := by
  exact (claim2_expiry_before_usage cryptoT 200 "t1" "s1" _).1
    { hashedApiKey := "h:s1", itemKey := "app://users/u1", permission := ["read"],
      expiresAt := 100, usedCount := 2, maxUses := 2 }
    (by decide) rfl (by rfl) (by decide) (by decide) (by decide)

/-- Claim C3 (counterexample): a secret that matches no stored record (the
store is empty) can fail with an infrastructure error instead of
`NotFoundError`/`UnauthorizedError`, and the cache usage counter is bumped
anyway — a stale cache entry whose verifier matches is validated on the hit
path, the cache counter is incremented, then the store increment throws. -/
theorem claim3_unknown_secret_counterexample :
    stCx.store = [] ∧
    (validateApiKey cryptoT 0 "t1" (some "s1") stCx).1 =
      Except.error ApiErrorKind.internalError ∧
    ApiKeyCache.get (validateApiKey cryptoT 0 "t1" (some "s1") stCx).2.cache "s1" =
      some { cacheProj recT with usedCount := 1 } := by
  refine ⟨rfl, ?_, ?_⟩ <;> rfl

/-- Claim C3 (amended): a presented secret that matches no stored record never
validates successfully; when additionally the cache holds no entry for it and
the per-secret lock is free, a fingerprint with no candidates yields
`NotFoundError`, candidates with no verifier match yield `UnauthorizedError`
(both leaving the whole state untouched); and the durable store is never
modified by any failing validation.  (A stale cache entry whose verifier
matches can instead produce expiry/usage/infrastructure failures and bump the
cache counter — see the counterexample.) -/
theorem claim3_unknown_secret_rejected (crypto : Crypto) (now : Int)
    (lockValue : String) (st : SysState) :
    (∀ key d, (validateApiKey crypto now lockValue (some key) st).1 = Except.ok d →
      ∃ r ∈ st.store, crypto.verifyApiKey r.hashedApiKey key = true) ∧
    (∀ key, ¬ key.length = 0 → assocGet st.locks (lockKeyFor key) = none →
      ApiKeyCache.get st.cache key = none →
      findBySearchableHash st.store (crypto.generateSearchableHash key) = [] →
      validateApiKey crypto now lockValue (some key) st =
        (Except.error ApiErrorKind.notFoundError, st)) ∧
    (∀ key, ¬ key.length = 0 → assocGet st.locks (lockKeyFor key) = none →
      ApiKeyCache.get st.cache key = none →
      (findBySearchableHash st.store (crypto.generateSearchableHash key)).isEmpty = false →
      (findBySearchableHash st.store (crypto.generateSearchableHash key)).find?
        (fun c => crypto.verifyApiKey c.hashedApiKey key) = none →
      validateApiKey crypto now lockValue (some key) st =
        (Except.error ApiErrorKind.unauthorizedError, st)) ∧
    (∀ req e, (validateApiKey crypto now lockValue req st).1 = Except.error e →
      (validateApiKey crypto now lockValue req st).2.store = st.store) := by
  refine ⟨?_, ?_, ?_, ?_⟩
  · intro key d h1
    by_cases hk : key.length = 0
    · simp [validateApiKey, hk] at h1
    · cases hlk : assocGet st.locks (lockKeyFor key) with
      | some entry =>
        rw [validateApiKey_locked_out crypto now lockValue key st entry hk hlk] at h1
        simp at h1
      | none =>
        rw [validateApiKey_unlocked crypto now lockValue key st hk hlk] at h1
        rcases validateLocked_cases crypto now key
            { st with locks :=
                assocSet st.locks (lockKeyFor key) ({ value := lockValue, ttlMs := 10000 }) }
          with h | h | h | h | ⟨ca, h⟩ | ⟨d', hh, u, s', ca, hi, hv, h⟩ <;> rw [h] at h1 <;>
          try simp at h1
        obtain ⟨r, hr, hrh⟩ := incrementUsage_some_mem _ _ _ _ hi
        exact ⟨r, hr, by rw [hrh]; exact hv⟩
  · intro key hk hlock hc hempty
    rw [validateApiKey_unlocked crypto now lockValue key st hk hlock,
        validateLocked_miss_notFound crypto now key
          { store := st.store, cache := st.cache,
            locks := assocSet st.locks (lockKeyFor key)
              ({ value := lockValue, ttlMs := 10000 }) } hc hempty]
  · intro key hk hlock hc hne hfp
    rw [validateApiKey_unlocked crypto now lockValue key st hk hlock,
        validateLocked_miss_unauthorized crypto now key
          { store := st.store, cache := st.cache,
            locks := assocSet st.locks (lockKeyFor key)
              ({ value := lockValue, ttlMs := 10000 }) } hc hne hfp]
  · intro req e h1
    cases req with
    | none => rfl
    | some key =>
      by_cases hk : key.length = 0
      · simp [validateApiKey, hk]
      · cases hlk : assocGet st.locks (lockKeyFor key) with
        | some entry =>
          rw [validateApiKey_locked_out crypto now lockValue key st entry hk hlk]
        | none =>
          rw [validateApiKey_unlocked crypto now lockValue key st hk hlk] at h1 ⊢
          rcases validateLocked_cases crypto now key
              { st with locks :=
                  assocSet st.locks (lockKeyFor key) ({ value := lockValue, ttlMs := 10000 }) }
            with h | h | h | h | ⟨ca, h⟩ | ⟨d', hh, u, s', ca, hi, hv, h⟩ <;>
            (rw [h] at h1 ⊢
             try first
               | rfl
               | simp at h1)

theorem claim3_unknown_secret_rejected_witness :
    validateApiKey cryptoT 0 "t1" (some "zz")
      { store := [recT], cache := [], locks := [] } =
      (Except.error ApiErrorKind.unauthorizedError,
       { store := [recT], cache := [], locks := [] }) := by
  exact (claim3_unknown_secret_rejected cryptoT 0 "t1"
      { store := [recT], cache := [], locks := [] }).2.2.1 "zz"
    (by decide) rfl rfl (by rfl) (by rfl)

/-- Claim C1: for a stored record that is unexpired and not exhausted, with the
lock free and the cache either cold or holding the record's projection,
validation of the record's secret succeeds; `usedCount` is incremented by
exactly one in the durable store and in the cache (on the hit and on the miss
path alike), and the returned `usedCount` is the post-increment count. -/
theorem claim1_successful_validation_increments (crypto : Crypto) (now : Int)
    (lockValue : String) (key : String) (st : SysState) (r : ApiKey)
    (hk : ¬ key.length = 0)
    (hlock : assocGet st.locks (lockKeyFor key) = none)
    (hfind : findByHashedKey st.store r.hashedApiKey = some r)
    (hver : crypto.verifyApiKey r.hashedApiKey key = true)
    (hfp : (findBySearchableHash st.store (crypto.generateSearchableHash key)).find?
        (fun c => crypto.verifyApiKey c.hashedApiKey key) = some r)
    (hcache : ApiKeyCache.get st.cache key = none ∨
      ApiKeyCache.get st.cache key = some (cacheProj r))
    (hexp : now < r.expiresAt)
    (huse : r.usedCount < r.maxUses) :
    ∃ st', validateApiKey crypto now lockValue (some key) st =
        (Except.ok { itemKey := r.itemKey, permission := r.permission,
                     expiresAt := r.expiresAt, usedCount := r.usedCount + 1,
                     maxUses := r.maxUses }, st') ∧
      findByHashedKey st'.store r.hashedApiKey =
        some { r with usedCount := r.usedCount + 1 } ∧
      ApiKeyCache.get st'.cache key =
        some { cacheProj r with usedCount := r.usedCount + 1 } := by
  obtain ⟨store', hinc, hfind'⟩ := incrementUsage_of_find st.store r.hashedApiKey r hfind
  rw [validateApiKey_unlocked crypto now lockValue key st hk hlock]
  rcases hcache with hmiss | hhit
  · rw [validateLocked_miss_success crypto now key
        { store := st.store, cache := st.cache,
          locks := assocSet st.locks (lockKeyFor key)
            ({ value := lockValue, ttlMs := 10000 }) }
        r { r with usedCount := r.usedCount + 1 } store'
        hmiss hfp (not_le.mpr hexp) (not_le.mpr huse) hinc]
    exact ⟨_, rfl, hfind', ApiKeyCache.get_set_self ..⟩
  · rw [validateLocked_hit_success crypto now key
        { store := st.store, cache := st.cache,
          locks := assocSet st.locks (lockKeyFor key)
            ({ value := lockValue, ttlMs := 10000 }) }
        (cacheProj r) { r with usedCount := r.usedCount + 1 } store'
        hhit hver (not_le.mpr hexp) (not_le.mpr huse) hinc]
    exact ⟨_, rfl, hfind', ApiKeyCache.get_set_self ..⟩

theorem claim1_successful_validation_increments_witness :
    ∃ st', validateApiKey cryptoT 0 "t1" (some "s1") stT =
        (Except.ok { itemKey := "app://users/u1", permission := ["read"],
                     expiresAt := 100, usedCount := 1, maxUses := 2 }, st') ∧
      findByHashedKey st'.store "h:s1" = some { recT with usedCount := 1 } ∧
      ApiKeyCache.get st'.cache "s1" = some { cacheProj recT with usedCount := 1 } := by
  exact claim1_successful_validation_increments cryptoT 0 "t1" "s1" stT recT
    (by decide) rfl (by rfl) (by rfl) (by rfl) (Or.inl rfl) (by decide) (by decide)

/-- Claim C6: on valid input, publish checks `exists(verifier)` before
persisting: a verifier collision fails with `DuplicateError` and leaves the
store unchanged; otherwise exactly one new record is appended with
`usedCount = 0` and the response carries the plaintext secret. -/
theorem claim6_publish_duplicate_or_create (crypto : Crypto) (now : Int)
    (originalApiKey newId : String) (req : PublishApiKeyRequest)
    (store : List ApiKey) (t : Int)
    (h1 : crypto.validateItemKey req.itemKey = true)
    (h2 : req.permission ≠ [])
    (h3 : req.expiresAt = some t)
    (h4 : now < t)
    (h5 : 1 ≤ req.maxUses) :
    (existsHashed store (crypto.hashApiKey originalApiKey) = true →
      publishApiKey crypto now originalApiKey newId req store =
        (Except.error ApiErrorKind.duplicateError, store)) ∧
    (existsHashed store (crypto.hashApiKey originalApiKey) = false →
      publishApiKey crypto now originalApiKey newId req store =
        (Except.ok { apiKey := originalApiKey, itemKey := req.itemKey,
                     permission := req.permission, publishedAt := now,
                     expiresAt := t, maxUses := req.maxUses },
         store ++ [{ id := newId,
                     searchableHash := crypto.generateSearchableHash originalApiKey,
                     hashedApiKey := crypto.hashApiKey originalApiKey,
                     itemKey := req.itemKey, permission := req.permission,
                     publishedAt := now, expiresAt := t, usedCount := 0,
                     maxUses := req.maxUses }])) := by
  have hperm : req.permission.isEmpty = false := by
    cases hp : req.permission with
    | nil => exact absurd hp h2
    | cons a l => rfl
  have hmax : ¬ req.maxUses ≤ 0 := by omega
  have hexp : ¬ t ≤ now := not_le.mpr h4
  constructor <;> intro hex <;>
    simp [publishApiKey, h1, hperm, h3, hexp, hmax, hex]

theorem claim6_publish_duplicate_or_create_witness :
    publishApiKey cryptoT 0 "s2" "k2" reqT [recT] =
      (Except.ok { apiKey := "s2", itemKey := "app://users/u1",
                   permission := ["read"], publishedAt := 0,
                   expiresAt := 100, maxUses := 2 },
       [recT, { id := "k2", searchableHash := "fp", hashedApiKey := "h:s2",
                itemKey := "app://users/u1", permission := ["read"],
                publishedAt := 0, expiresAt := 100, usedCount := 0,
                maxUses := 2 }]) := by
  have h := (claim6_publish_duplicate_or_create cryptoT 0 "s2" "k2" reqT [recT] 100
    (by rfl) (by decide) rfl (by decide) (by decide)).2 (by rfl)
  exact h

/-- Claim C7: publish fails with `ValidationError` exactly when the item key
fails the format check, the permission list is empty, the expiry instant is
unparseable or not strictly in the future, or the max-use count is below 1;
the failure leaves the store unchanged and happens before the secret is
generated (the outcome does not depend on the generated secret or id). -/
theorem claim7_publish_validation (crypto : Crypto) (now : Int)
    (originalApiKey newId : String) (req : PublishApiKeyRequest)
    (store : List ApiKey) :
    ((publishApiKey crypto now originalApiKey newId req store).1 =
        Except.error ApiErrorKind.validationError ↔
      (crypto.validateItemKey req.itemKey = false ∨ req.permission = [] ∨
       req.expiresAt = none ∨ (∃ t, req.expiresAt = some t ∧ t ≤ now) ∨
       req.maxUses ≤ 0)) ∧
    ((publishApiKey crypto now originalApiKey newId req store).1 =
        Except.error ApiErrorKind.validationError →
      (publishApiKey crypto now originalApiKey newId req store).2 = store ∧
      ∀ k2 id2, publishApiKey crypto now k2 id2 req store =
        publishApiKey crypto now originalApiKey newId req store) := by
  cases hitem : crypto.validateItemKey req.itemKey with
  | false =>
    constructor
    · simp [publishApiKey, hitem]
    · intro h
      refine ⟨by simp [publishApiKey, hitem], ?_⟩
      intro k2 id2
      simp [publishApiKey, hitem]
  | true =>
    cases hperm : req.permission with
    | nil =>
      constructor
      · simp [publishApiKey, hitem, hperm]
      · intro h
        refine ⟨by simp [publishApiKey, hitem, hperm], ?_⟩
        intro k2 id2
        simp [publishApiKey, hitem, hperm]
    | cons a l =>
      cases hdate : req.expiresAt with
      | none =>
        constructor
        · simp [publishApiKey, hitem, hperm, hdate]
        · intro h
          refine ⟨by simp [publishApiKey, hitem, hperm, hdate], ?_⟩
          intro k2 id2
          simp [publishApiKey, hitem, hperm, hdate]
      | some t =>
        by_cases hpast : t ≤ now
        · constructor
          · simp only [publishApiKey, hitem, hperm, hdate]
            constructor
            · intro h
              exact Or.inr (Or.inr (Or.inr (Or.inl ⟨t, rfl, hpast⟩)))
            · intro h
              simp [hpast]
          · intro h
            refine ⟨by simp [publishApiKey, hitem, hperm, hdate, hpast], ?_⟩
            intro k2 id2
            simp [publishApiKey, hitem, hperm, hdate, hpast]
        · by_cases hmax : req.maxUses ≤ 0
          · constructor
            · simp only [publishApiKey, hitem, hperm, hdate]
              constructor
              · intro h
                exact Or.inr (Or.inr (Or.inr (Or.inr hmax)))
              · intro h
                simp [hpast, hmax]
            · intro h
              refine ⟨by simp [publishApiKey, hitem, hperm, hdate, hpast, hmax], ?_⟩
              intro k2 id2
              simp [publishApiKey, hitem, hperm, hdate, hpast, hmax]
          · constructor
            · constructor
              · intro h
                by_cases hex : existsHashed store (crypto.hashApiKey originalApiKey)
                · simp [publishApiKey, hitem, hperm, hdate, hpast, hmax, hex] at h
                · simp [publishApiKey, hitem, hperm, hdate, hpast, hmax, hex] at h
              · intro h
                rcases h with h | h | h | ⟨t', ht', hle⟩ | h
                · simp at h
                · simp at h
                · simp at h
                · have ht : t = t' := by injection ht'
                  exact absurd hle (by omega)
                · exact absurd h hmax
            · intro h
              by_cases hex : existsHashed store (crypto.hashApiKey originalApiKey)
              · simp [publishApiKey, hitem, hperm, hdate, hpast, hmax, hex] at h
              · simp [publishApiKey, hitem, hperm, hdate, hpast, hmax, hex] at h

theorem claim7_publish_validation_witness :
    (publishApiKey cryptoT 200 "s2" "k2" reqT [recT]).1 =
        Except.error ApiErrorKind.validationError ∧
    (publishApiKey cryptoT 200 "s2" "k2" reqT [recT]).2 = [recT] := by
  have hiff := (claim7_publish_validation cryptoT 200 "s2" "k2" reqT [recT]).1.mpr
    (Or.inr (Or.inr (Or.inr (Or.inl ⟨100, rfl, by decide⟩))))
  exact ⟨hiff, ((claim7_publish_validation cryptoT 200 "s2" "k2" reqT [recT]).2 hiff).1⟩

/-! ### Rate-limiter lemmas -/

/-- When every recorded entry is at least `T` and the check runs strictly
inside the window starting at `T`, nothing is pruned. -/
theorem checkLimit_no_prune (entries : List Int) (now maxRequests windowMs T : Int)
    (hT : ∀ e ∈ entries, T ≤ e) (hnow : now < T + windowMs) :
    RateLimiter.checkLimit entries now maxRequests windowMs =
      (decide (maxRequests ≤ (entries.length : Int)), entries ++ [now],
       (windowMs + 999) / 1000) := by
  have hfilter : entries.filter
      (fun s => ! (decide (0 ≤ s) && decide (s ≤ now - windowMs))) = entries := by
    apply List.filter_eq_self.mpr
    intro e he
    have h2 : ¬ e ≤ now - windowMs := by have := hT e he; omega
    simp [h2]
  unfold RateLimiter.checkLimit
  dsimp only
  rw [hfilter]

/-- Running a burst of checks whose times all lie inside one window: each
check's bit reflects the number of previously recorded entries (counting goes
on even for rejected requests). -/
theorem runChecks_within_window (maxRequests windowMs T : Int) (ts : List Int) :
    ∀ entries : List Int, (∀ e ∈ entries, T ≤ e) → (∀ t ∈ ts, T ≤ t ∧ t < T + windowMs) →
    (runChecks maxRequests windowMs ts entries).1 =
      (List.range ts.length).map
        (fun i : Nat => decide (maxRequests ≤ (entries.length : Int) + (i : Int))) := by
  induction ts with
  | nil => intro entries hent hts; simp [runChecks]
  | cons t ts ih =>
    intro entries hent hts
    have h1 := hts t (List.mem_cons_self ..)
    have hcheck := checkLimit_no_prune entries t maxRequests windowMs T hent h1.2
    have hent' : ∀ e ∈ entries ++ [t], T ≤ e := by
      intro e he
      rcases List.mem_append.mp he with he | he
      · exact hent e he
      · simp only [List.mem_singleton] at he
        rw [he]; exact h1.1
    have hts' : ∀ u ∈ ts, T ≤ u ∧ u < T + windowMs :=
      fun u hu => hts u (List.mem_cons_of_mem _ hu)
    show (runChecks maxRequests windowMs (t :: ts) entries).1 = _
    unfold runChecks
    dsimp only
    rw [hcheck]
    dsimp only
    rw [ih (entries ++ [t]) hent' hts']
    simp only [List.length_cons]
    rw [List.range_succ_eq_map, List.map_cons, List.map_map]
    congr 1
    all_goals simp
    all_goals intro a ha
    all_goals constructor <;> intro <;> omega

theorem range_map_replicate (m : Nat) :
    (List.range (m + 1)).map (fun i : Nat => decide ((m : Int) ≤ (i : Int))) =
      List.replicate m false ++ [true] := by
  rw [List.range_succ, List.map_append]
  congr 1
  · refine List.eq_replicate_iff.mpr ⟨by simp, ?_⟩
    intro b hb
    simp only [List.mem_map, List.mem_range] at hb
    obtain ⟨i, hi, hbi⟩ := hb
    rw [← hbi]
    have hlt : ¬ ((m : Int) ≤ (i : Int)) := by omega
    simp [hlt]
  · simp

/-- Claim C5 (amended: the prune drops entries at-or-older-than
`now - window`; Redis ZREMRANGEBYSCORE is boundary-inclusive): each check
prunes, counts, inserts the current timestamp (also on rejection) and refreshes
the key expiry to `ceil(window/1000)` seconds; it rejects exactly when the
post-prune pre-insert count reaches the ceiling; consequently `limit + 1`
requests inside one window make the `(limit+1)`-th the first rejection. -/
theorem claim5_rate_window (entries : List Int) (now maxRequests windowMs : Int) :
    ((RateLimiter.checkLimit entries now maxRequests windowMs).1 = true ↔
      maxRequests ≤ ((entries.filter
        (fun s => ! (decide (0 ≤ s) && decide (s ≤ now - windowMs)))).length : Int)) ∧
    (RateLimiter.checkLimit entries now maxRequests windowMs).2.1 =
      (entries.filter (fun s => ! (decide (0 ≤ s) && decide (s ≤ now - windowMs)))) ++ [now] ∧
    (RateLimiter.checkLimit entries now maxRequests windowMs).2.2 =
      (windowMs + 999) / 1000 ∧
    (∀ (m : Nat) (T : Int) (ts : List Int), ts.length = m + 1 →
      (∀ t ∈ ts, T ≤ t ∧ t < T + windowMs) →
      (runChecks (m : Int) windowMs ts []).1 = List.replicate m false ++ [true]) := by
  refine ⟨?_, rfl, rfl, ?_⟩
  · simp [RateLimiter.checkLimit]
  · intro m T ts hlen hts
    rw [runChecks_within_window (m : Int) windowMs T ts [] (by simp) hts, hlen]
    simp only [List.length_nil, Nat.cast_zero, zero_add]
    exact range_map_replicate m

theorem claim5_rate_window_witness :
    (runChecks (2 : Int) 1000 [0, 1, 2] []).1 = [false, false, true] := by
  have h := (claim5_rate_window [] 0 2 1000).2.2.2 2 0 [0, 1, 2] rfl (by decide)
  simpa using h

/-- Claim C5 (counterexample to the claim as stated): the claim's prune step
drops only entries strictly older than `now - window`, but the code's
ZREMRANGEBYSCORE from 0 to `now - window` is inclusive.  With one entry at
time 0, a window of 5 and a ceiling of 1, a check at time 5 is admitted by the
code while the claim's description mandates rejection. -/
theorem claim5_rate_window_counterexample :
    (RateLimiter.checkLimit [0] 5 1 5).1 = false ∧
    (checkLimitSpec [0] 5 1 5).1 = true := by
  constructor <;> rfl

/-! ### Invariant machinery for operation sequences -/

theorem publishApiKey_store_cases (crypto : Crypto) (now : Int)
    (originalApiKey newId : String) (req : PublishApiKeyRequest) (store : List ApiKey) :
    (publishApiKey crypto now originalApiKey newId req store).2 = store ∨
    ∃ rec : ApiKey, rec.usedCount = 0 ∧
      (publishApiKey crypto now originalApiKey newId req store).2 = store ++ [rec] := by
  unfold publishApiKey
  split
  · exact Or.inl rfl
  · split
    · exact Or.inl rfl
    · split
      · exact Or.inl rfl
      · split
        · exact Or.inl rfl
        · split
          · exact Or.inl rfl
          · dsimp only
            split
            · exact Or.inl rfl
            · exact Or.inr ⟨_, rfl, rfl⟩

theorem revokeKey_store_cases (store : List ApiKey) (h : String) (now : Int) :
    (revokeKey store h now).2 = store ∨
    (revokeKey store h now).2 = updateExpiresAt store h now := by
  unfold revokeKey
  split
  · exact Or.inl rfl
  · exact Or.inr rfl

/-- Mutation shape of a single operation: a post-state record is an old record,
a fresh record with `usedCount = 0` (publish), an old record with `usedCount`
bumped by one (validate), or an old record with only `expiresAt` changed
(revoke). -/
theorem step_store_mem (crypto : Crypto) (st : SysState) (op : Op) :
    ∀ r' ∈ (step crypto st op).store,
      r' ∈ st.store ∨ r'.usedCount = 0 ∨
      (∃ r ∈ st.store, r' = { r with usedCount := r.usedCount + 1 }) ∨
      (∃ r ∈ st.store, ∃ t, r' = { r with expiresAt := t }) := by
  intro r' hr'
  cases op with
  | publish req key id now =>
    rcases publishApiKey_store_cases crypto now key id req st.store with h | ⟨rec, h0, h⟩
    · simp only [step] at hr'; rw [h] at hr'; exact Or.inl hr'
    · simp only [step] at hr'; rw [h] at hr'
      rcases List.mem_append.mp hr' with h1 | h1
      · exact Or.inl h1
      · simp only [List.mem_singleton] at h1
        rw [h1]
        exact Or.inr (Or.inl h0)
  | validate apiKey lockValue now =>
    rcases validateApiKey_store_cases crypto now lockValue apiKey st with h | ⟨hh, u, s', hi, h⟩
    · simp only [step] at hr'; rw [h] at hr'; exact Or.inl hr'
    · simp only [step] at hr'; rw [h] at hr'
      rcases incrementUsage_mem st.store hh u s' hi r' hr' with h1 | ⟨r, hr, he⟩
      · exact Or.inl h1
      · exact Or.inr (Or.inr (Or.inl ⟨r, hr, he⟩))
  | revoke hh now =>
    rcases revokeKey_store_cases st.store hh now with h | h
    · simp only [step] at hr'; rw [h] at hr'; exact Or.inl hr'
    · simp only [step] at hr'; rw [h] at hr'
      rcases updateExpiresAt_mem st.store hh now r' hr' with h1 | ⟨r, hr, he⟩
      · exact Or.inl h1
      · exact Or.inr (Or.inr (Or.inr ⟨r, hr, now, he⟩))

theorem step_find_mono (crypto : Crypto) (st : SysState) (op : Op) (k : String)
    (r : ApiKey) (hf : findByHashedKey st.store k = some r) :
    ∃ r', findByHashedKey (step crypto st op).store k = some r' ∧
      r.usedCount ≤ r'.usedCount := by
  cases op with
  | publish req key id now =>
    rcases publishApiKey_store_cases crypto now key id req st.store with h | ⟨rec, h0, h⟩
    · exact ⟨r, by simp only [step]; rw [h]; exact hf, le_refl _⟩
    · exact ⟨r, by simp only [step]; rw [h]; exact findByHashedKey_append _ _ _ _ hf,
        le_refl _⟩
  | validate apiKey lockValue now =>
    rcases validateApiKey_store_cases crypto now lockValue apiKey st with h | ⟨hh, u, s', hi, h⟩
    · exact ⟨r, by simp only [step]; rw [h]; exact hf, le_refl _⟩
    · rcases incrementUsage_find_mono st.store hh u s' hi k r hf with h1 | h1
      · exact ⟨r, by simp only [step]; rw [h]; exact h1, le_refl _⟩
      · exact ⟨{ r with usedCount := r.usedCount + 1 },
          by simp only [step]; rw [h]; exact h1,
          by show r.usedCount ≤ r.usedCount + 1; omega⟩
  | revoke hh now =>
    rcases revokeKey_store_cases st.store hh now with h | h
    · exact ⟨r, by simp only [step]; rw [h]; exact hf, le_refl _⟩
    · rcases updateExpiresAt_find_mono st.store hh now k r hf with h1 | h1
      · exact ⟨r, by simp only [step]; rw [h]; exact h1, le_refl _⟩
      · exact ⟨{ r with expiresAt := now },
          by simp only [step]; rw [h]; exact h1, le_refl _⟩

theorem run_nonneg (crypto : Crypto) (ops : List Op) :
    ∀ st : SysState, (∀ r ∈ st.store, 0 ≤ r.usedCount) →
      ∀ r' ∈ (run crypto st ops).store, 0 ≤ r'.usedCount := by
  induction ops with
  | nil =>
    intro st h r' hr'
    simp only [run] at hr'
    exact h r' hr'
  | cons op ops ih =>
    intro st h r' hr'
    simp only [run] at hr'
    refine ih (step crypto st op) ?_ r' hr'
    intro r'' hr''
    rcases step_store_mem crypto st op r'' hr'' with h1 | h1 | ⟨r0, hr0, he⟩ | ⟨r0, hr0, t, he⟩
    · exact h r'' h1
    · omega
    · have h2 := h r0 hr0
      rw [he]
      show 0 ≤ r0.usedCount + 1
      omega
    · rw [he]
      show 0 ≤ r0.usedCount
      exact h r0 hr0

theorem run_find_mono (crypto : Crypto) (ops : List Op) :
    ∀ (st : SysState) (k : String) (r : ApiKey), findByHashedKey st.store k = some r →
      ∃ r', findByHashedKey (run crypto st ops).store k = some r' ∧
        r.usedCount ≤ r'.usedCount := by
  induction ops with
  | nil =>
    intro st k r hf
    exact ⟨r, by simpa [run] using hf, le_refl _⟩
  | cons op ops ih =>
    intro st k r hf
    obtain ⟨r1, hf1, hle1⟩ := step_find_mono crypto st op k r hf
    obtain ⟨r', hf', hle'⟩ := ih (step crypto st op) k r1 hf1
    exact ⟨r', by simpa [run] using hf', le_trans hle1 hle'⟩

/-- Claim C9: every single publish/validate/revoke step either keeps a record,
creates one with `usedCount = 0`, bumps one record's `usedCount` by exactly 1
(the validator's increment) or changes only `expiresAt` (revoke); consequently
along every sequence of operations `0 ≤ usedCount` is preserved and each
record's `usedCount`, tracked by its verifier, never decreases. -/
theorem claim9_used_count_invariant (crypto : Crypto) (st : SysState) :
    (∀ op, ∀ r' ∈ (step crypto st op).store,
      r' ∈ st.store ∨ r'.usedCount = 0 ∨
      (∃ r ∈ st.store, r' = { r with usedCount := r.usedCount + 1 }) ∨
      (∃ r ∈ st.store, ∃ t, r' = { r with expiresAt := t })) ∧
    (∀ ops, (∀ r ∈ st.store, 0 ≤ r.usedCount) →
      ∀ r' ∈ (run crypto st ops).store, 0 ≤ r'.usedCount) ∧
    (∀ ops k r, findByHashedKey st.store k = some r →
      ∃ r', findByHashedKey (run crypto st ops).store k = some r' ∧
        r.usedCount ≤ r'.usedCount) :=
  ⟨fun op => step_store_mem crypto st op,
   fun ops => run_nonneg crypto ops st,
   fun ops k r hf => run_find_mono crypto ops st k r hf⟩

theorem claim9_used_count_invariant_witness :
    ∃ r', findByHashedKey
        (run cryptoT stT [Op.validate (some "s1") "t1" 0]).store "h:s1" = some r' ∧
      recT.usedCount ≤ r'.usedCount := by
  exact (claim9_used_count_invariant cryptoT stT).2.2
    [Op.validate (some "s1") "t1" 0] "h:s1" recT (by rfl)

end Inventory
